import Mathlib

/-!
Verification development for the LinkedIn job-harvest engine
(`src/jobs-ai-hr.ts`).  The repository ships two iterations of the engine
in one file: a legacy variant (cap 80, 25 scroll rounds, stagnation
threshold 4, no block detector) and a robust variant (cap 40, 10 scroll
rounds, stagnation threshold 5, block detector, hard run timeout).  Both
are embedded below; the robust variant carries the unsuffixed names, the
legacy variant the `V1` suffix.

JavaScript strings are modelled as `List Char` (`Str`); browser effects
(navigations, waits, clicks, console output) carry no data relevant to the
verified properties and are absorbed into an environment record that
supplies, per round and per candidate URL, what the page would have
yielded.
-/

set_option maxRecDepth 4096

abbrev Str := List Char

/-! ## Text helpers (`normalizeText`, trimming) -/

/-- Model of JS `String.prototype.trim`: drop whitespace at both ends. -/
def trimStr (s : Str) : Str :=
  ((s.dropWhile Char.isWhitespace).reverse.dropWhile Char.isWhitespace).reverse

/-- Model of `.replace(/\s+/g, " ")`: every maximal whitespace run becomes
one space. -/
def collapseWs : Str → Str
  | [] => []
  | [c] => if c.isWhitespace then [' '] else [c]
  | c :: d :: rest =>
    if c.isWhitespace && d.isWhitespace then collapseWs (d :: rest)
    else (if c.isWhitespace then ' ' else c) :: collapseWs (d :: rest)

/-- `normalizeText` from the source: `(s ?? "").replace(/\s+/g, " ").trim()`.
The `s ?? ""` null-coalescing is handled at call sites via `Option.getD`. -/
def normalizeText (s : Str) : Str := trimStr (collapseWs s)

/-! ## URL canonicalization (`normalizeJobUrl`) -/

/-- The origin prepended to root-relative hrefs. -/
def linkedinOrigin : Str := "https://www.linkedin.com".data

/-- The fixed path-shape marker a candidate URL must contain. -/
def jobsViewMarker : Str := "/jobs/view/".data

/-- `normalizeJobUrl` from the source:

    if (!href) return null;
    let abs = href;
    if (abs.startsWith("/")) abs = "https://www.linkedin.com" + abs;
    if (!abs.includes("/jobs/view/")) return null;
    return abs.split("?")[0];

`split("?")[0]` is exactly the longest prefix free of `?`. -/
def normalizeJobUrl (href : Str) : Option Str :=
  if href = [] then none
  else
    let abs := if href.head? = some '/' then linkedinOrigin ++ href else href
    if jobsViewMarker <:+: abs then some (abs.takeWhile (fun c => c ≠ '?'))
    else none

example : normalizeJobUrl "/jobs/view/123?refId=9".data
    = some "https://www.linkedin.com/jobs/view/123".data := by decide
example : normalizeJobUrl "https://example.com/feed".data = none := by decide
example : normalizeJobUrl [] = none := by decide

/-! ## The two relevance regexes

`AI_REGEX` and `HR_REGEX` contain no unbounded repetition: each is a
word-boundary-delimited alternation of literals (with `\.?` optionals and
`(..)` groups, which expand to finitely many literals).  `regex.test` for
such a pattern holds iff some alternative literal occurs at some position
with a word boundary on each side.  `\b` sits between a word char
(`[A-Za-z0-9_]`) and a non-word char (string edges count as non-word);
the `/i` flag is modelled by lowercasing the inspected characters. -/

/-- JS `\w`: ASCII alphanumeric or underscore. -/
def isWordChar (c : Char) : Bool := c.isAlphanum || c = '_'

/-- Whether position `i` of `t` holds a word character (out of range:
no). -/
def wordAt (t : Str) (i : Nat) : Bool :=
  match t.get? i with
  | some c => isWordChar c
  | none => false

/-- JS `\b` at gap position `i` (between `t[i-1]` and `t[i]`). -/
def boundaryAt (t : Str) : Nat → Bool
  | 0 => wordAt t 0
  | i + 1 => wordAt t i != wordAt t (i + 1)

/-- The literal `a` occurs at position `i` of `t`, case-insensitively. -/
def litMatchAt (t : Str) (i : Nat) (a : Str) : Bool :=
  ((t.drop i).take a.length).map Char.toLower = a

/-- One expanded alternative: word boundary, literal, word boundary. -/
def altMatchAt (t : Str) (i : Nat) (a : Str) : Bool :=
  boundaryAt t i && litMatchAt t i a && boundaryAt t (i + a.length)

/-- `regex.test` for a finite boundary-delimited alternation. -/
def regexTestAlts (alts : List Str) (t : Str) : Bool :=
  (List.range (t.length + 1)).any fun i => alts.any (altMatchAt t i)

/-- Expanded alternatives of
`/\b(ai|artificial intelligence|ki|k\.?i\.?|machine learning|ml\b|genai|generative ai|llm|large language model)\b/i`.
`k\.?i\.?` expands to `ki`, `k.i`, `ki.`, `k.i.` (the first duplicates the
standalone `ki` alternative). -/
def AI_REGEX_alts : List Str :=
  ["ai".data, "artificial intelligence".data, "ki".data, "k.i".data,
   "ki.".data, "k.i.".data, "machine learning".data, "ml".data,
   "genai".data, "generative ai".data, "llm".data,
   "large language model".data]

/-- Expanded alternatives of
`/\b(hr|human resources|people\b|talent\b|recruit(ing|er|ment)|people operations|personal(wesen|abteilung)?)\b/i`. -/
def HR_REGEX_alts : List Str :=
  ["hr".data, "human resources".data, "people".data, "talent".data,
   "recruiting".data, "recruiter".data, "recruitment".data,
   "people operations".data, "personal".data, "personalwesen".data,
   "personalabteilung".data]

/-- `AI_REGEX.test(t)`. -/
def testAI (t : Str) : Bool := regexTestAlts AI_REGEX_alts t

/-- `HR_REGEX.test(t)`. -/
def testHR (t : Str) : Bool := regexTestAlts HR_REGEX_alts t

/-- Result record of `matchesAIandHR`. -/
structure MatchInfo where
  ai : Bool
  hr : Bool
  ok : Bool
deriving DecidableEq, Repr

/-- `matchesAIandHR` from the source. -/
def matchesAIandHR (text : Str) : MatchInfo :=
  let ai := testAI text
  let hr := testHR text
  ⟨ai, hr, ai && hr⟩

example : (matchesAIandHR "Head of AI for HR tech".data).ok = true := by decide
example : (matchesAIandHR "Machine Learning Engineer".data).ok = false := by decide
example : (matchesAIandHR "Recruiting lead".data).ok = false := by decide
example : testAI "email".data = false := by decide
example : testHR "Personalabteilung sucht KI-Experten".data = true := by decide
example : testAI "Personalabteilung sucht KI-Experten".data = true := by decide

/-! ## Posting-date rendering (`toIsoDateOrEmpty`)

`new Date(input)` is a host (ECMA-262) primitive, not repository code; it
is modelled as an abstract parse function producing either `none` (a NaN
date) or the UTC calendar view of the parsed instant.  ECMA-262 guarantees
`getUTCMonth() ∈ [0,11]` and `getUTCDate() ∈ [1,31]` for every non-NaN
date, which the `Fin` fields encode; `getUTCFullYear()` is an arbitrary
integer. -/

/-- UTC calendar view of a non-NaN JS date: `getUTCFullYear`,
`getUTCMonth` (0-based) and `getUTCDate` (1-based, stored 0-based). -/
structure UtcView where
  year : Int
  monthIndex : Fin 12
  dayIndex : Fin 31
deriving DecidableEq, Repr

/-- JS `String(n)` for an integer. -/
def intToStr (i : Int) : Str :=
  if i < 0 then '-' :: Nat.toDigits 10 i.natAbs else Nat.toDigits 10 i.natAbs

/-- JS `String(n).padStart(2, "0")`. -/
def padTwo (n : Nat) : Str :=
  let s := Nat.toDigits 10 n
  List.replicate (2 - s.length) '0' ++ s

/-- The template literal `` `${yyyy}-${mm}-${dd}` `` of the source, where
`yyyy = String(d.getUTCFullYear())`, `mm = String(d.getUTCMonth()+1).padStart(2,"0")`,
`dd = String(d.getUTCDate()).padStart(2,"0")`. -/
def isoRender (v : UtcView) : Str :=
  intToStr v.year ++ '-' :: padTwo (v.monthIndex.val + 1) ++ '-' :: padTwo (v.dayIndex.val + 1)

/-- `toIsoDateOrEmpty` from the source, parameterized by the host date
parser: NaN parse yields `""`, otherwise the UTC components are
rendered. -/
def toIsoDateOrEmpty (parse : Str → Option UtcView) (input : Str) : Str :=
  match parse input with
  | none => []
  | some v => isoRender v

/-! ## Detail extraction (`readJobPageDetails`, robust variant)

Every Playwright read in the source is individually guarded with
`.catch(...)`, so each field source is an independent `Option`: `none`
models a failed/absent read, `some s` a successful read of text `s`.
A page snapshot supplies all of them. -/

/-- What the job detail page yields to each independent read of
`readJobPageDetails`. -/
structure PageEnv where
  /-- `titleLoc.textContent()`. -/
  titleText : Option Str
  /-- `page.title()` (fallback for the job title). -/
  pageTitle : Option Str
  /-- `companyLoc.textContent()`. -/
  companyText : Option Str
  /-- `descLoc.textContent()`. -/
  descText : Option Str
  /-- the `page.evaluate` fallback text of the job-details region. -/
  mainText : Option Str
  /-- `time[datetime]` attribute value. -/
  datetimeAttr : Option Str
deriving DecidableEq, Repr

/-- Extraction result of `readJobPageDetails`. -/
structure JobDetails where
  jobTitle : Str
  company : Str
  description : Str
  postingDate : Str
deriving DecidableEq, Repr

/-- `readJobPageDetails` of the robust variant: every field is
best-effort, missing reads degrade to the documented fallbacks, and no
failure propagates (the function is total). -/
def readJobPageDetails (parse : Str → Option UtcView) (p : PageEnv) : JobDetails :=
  let t1 := normalizeText (p.titleText.getD [])
  let t2 := normalizeText (p.pageTitle.getD [])
  let jobTitle := if t1 ≠ [] then t1 else if t2 ≠ [] then t2 else "(unknown title)".data
  let c1 := normalizeText (p.companyText.getD [])
  let company := if c1 ≠ [] then c1 else "(unknown company)".data
  let d1 := normalizeText (p.descText.getD [])
  let description :=
    if d1 = [] ∨ d1.length < 50 then normalizeText ((p.mainText.getD []).take 15000)
    else d1
  let postingDate :=
    match p.datetimeAttr with
    | some dt => if dt = [] then [] else toIsoDateOrEmpty parse dt
    | none => []
  ⟨jobTitle, company, description, postingDate⟩

/-- The haystack `` `${jobTitle}\n${company}\n${description}` `` fed to the
content filter. -/
def haystackOf (d : JobDetails) : Str :=
  d.jobTitle ++ '\n' :: d.company ++ '\n' :: d.description

example :
    readJobPageDetails (fun _ => none) ⟨none, none, none, none, none, none⟩
      = ⟨"(unknown title)".data, "(unknown company)".data, [], []⟩ := by decide

/-! ## The harvest engine

Constants of the robust variant and of the legacy variant. -/

def MAX_RESULTS_TO_PROCESS : Nat := 40
def MAX_SCROLL_ROUNDS : Nat := 10
def HARD_RUN_TIMEOUT_MS : Nat := 8 * 60000
def STAGNATION_THRESHOLD : Nat := 5

def MAX_RESULTS_TO_PROCESS_V1 : Nat := 80
def MAX_SCROLL_ROUNDS_V1 : Nat := 25
def STAGNATION_THRESHOLD_V1 : Nat := 4

/-- Result record (`ApiJob` of the source). -/
structure ApiJob where
  jobTitle : Str
  description : Str
  link : Str
  contact : Str
  company : Str
  postingDate : Str
deriving DecidableEq, Repr

/-- The record pushed at the single mutation point of `jobs`. -/
def mkApiJob (url : Str) (d : JobDetails) : ApiJob :=
  ⟨d.jobTitle, d.description, url, [], d.company, d.postingDate⟩

/-- Faults the engine can surface (`throw` sites of the source plus the
hard-timeout rejection). -/
inductive HarvestError where
  /-- `NAV_TIMEOUT_search` from the uncaught initial `gotoWithTimeout`. -/
  | navTimeoutSearch
  /-- `BLOCKED_OR_NO_JOBS` from the initial block detection. -/
  | blockedInitial
  /-- `BLOCKED_MIDRUN` from the per-round block detection. -/
  | blockedMidrun
  /-- `TIMEOUT: Job fetch exceeded ...ms` from `withHardTimeout`. -/
  | harvestTimeout
deriving DecidableEq, Repr

/-- Environment a run interacts with: what the remote page would yield at
each interaction point.  `trace`-free browser effects (waits, scrolls,
clicks, console logging) are dropped; everything data-bearing is here. -/
structure HarvestEnv where
  /-- whether the initial navigation to the search URL succeeds. -/
  initNavOk : Bool
  /-- initial `waitForJobsOrDetectBlock` verdict (`true` = BLOCKED). -/
  blockAtInit : Bool
  /-- per-round `waitForJobsOrDetectBlock` verdict (`true` = BLOCKED). -/
  blockAtRound : Nat → Bool
  /-- raw hrefs `collectLeftHrefs` yields at the top of each round. -/
  hrefsAt : Nat → List Str
  /-- whether `gotoWithTimeout` to a job URL succeeds (robust variant). -/
  jobNavOk : Str → Bool
  /-- detail-page snapshot shown after navigating to a job URL. -/
  pageAt : Str → PageEnv
  /-- the host `new Date(...)` parser. -/
  jsParse : Str → Option UtcView
  /-- detail record the legacy variant's extractor returns for a URL
  (its extractor differs slightly and is left abstract). -/
  detailsAtV1 : Str → JobDetails
  /-- wall-clock duration until the harvest promise would settle. -/
  settleMs : Nat

/-- Detail record the robust variant extracts for a candidate URL. -/
def detailsOfEnv (env : HarvestEnv) (url : Str) : JobDetails :=
  readJobPageDetails env.jsParse (env.pageAt url)

/-- Mutable state of one run.  `trace` is ghost instrumentation recording,
in order, every candidate key dispatched to detail extraction; it affects
no control decision. -/
structure LoopState where
  seen : List Str
  jobs : List ApiJob
  stagnant : Nat
  lastSeen : Nat
  trace : List Str
deriving DecidableEq, Repr

def initialLoopState : LoopState := ⟨[], [], 0, 0, []⟩

/-- The href post-processing pipeline of both variants:
`.map(h => h?.trim()).filter(Boolean).map(normalizeJobUrl).filter(Boolean)`. -/
def normalizeHrefList (raw : List Str) : List Str :=
  (((raw.map trimStr).filter (fun h => h ≠ [])).filterMap normalizeJobUrl)

/-- The per-candidate `for` loop shared by both variants:

    for (const jobUrl of hrefs) {
      if (jobs.length >= maxResults) break;
      if (seen.has(jobUrl)) continue;
      seen.add(jobUrl);
      try { goto(jobUrl); details = read(page); if (match) jobs.push(...); }
      catch { /* logged, loop continues */ }
    }

In the legacy variant the navigation failure is swallowed before the read,
so it is invoked with `navOk = fun _ => true` and its own detail reader. -/
def processCandidates (maxResults : Nat) (navOk : Str → Bool)
    (details : Str → JobDetails) : List Str → LoopState → LoopState
  | [], s => s
  | url :: rest, s =>
    if s.jobs.length ≥ maxResults then s
    else if url ∈ s.seen then processCandidates maxResults navOk details rest s
    else
      let s1 : LoopState := { s with seen := s.seen ++ [url], trace := s.trace ++ [url] }
      if navOk url then
        let d := details url
        if (matchesAIandHR (haystackOf d)).ok then
          processCandidates maxResults navOk details rest
            { s1 with jobs := s1.jobs ++ [mkApiJob url d] }
        else processCandidates maxResults navOk details rest s1
      else processCandidates maxResults navOk details rest s1

/-- End-of-round stagnation bookkeeping of the robust variant, verbatim:
`prevSeen` is captured from `seen.size` after the round's candidate
processing, the page is scrolled (the re-collected `uniqueAfter` set is
only logged), and then `seen.size === prevSeen` decides reset vs
increment.  Nothing mutates `seen` in between. -/
def stagnationStep (s1 : LoopState) : LoopState :=
  let prevSeen := s1.seen.length
  if s1.seen.length = prevSeen then { s1 with stagnant := s1.stagnant + 1 }
  else { s1 with stagnant := 0 }

/-- End-of-round stagnation bookkeeping of the legacy variant:
`if (seen.size === lastSeen) stagnant++; else stagnant = 0; lastSeen = seen.size`. -/
def stagnationStepV1 (s1 : LoopState) : LoopState :=
  if s1.seen.length = s1.lastSeen
  then { s1 with stagnant := s1.stagnant + 1, lastSeen := s1.seen.length }
  else { s1 with stagnant := 0, lastSeen := s1.seen.length }

/-- The round loop of the robust variant (`for (let round = 0; round <
MAX_SCROLL_ROUNDS; round++)`), structurally recursing on the remaining
fuel with `idx` the current round index. -/
def runRoundsAiHr (env : HarvestEnv) : Nat → Nat → LoopState → Except HarvestError LoopState
  | _, 0, s => .ok s
  | idx, fuel + 1, s =>
    if env.blockAtRound idx then .error .blockedMidrun
    else
      let s1 := processCandidates MAX_RESULTS_TO_PROCESS env.jobNavOk
        (detailsOfEnv env) (normalizeHrefList (env.hrefsAt idx)) s
      if s1.jobs.length ≥ MAX_RESULTS_TO_PROCESS then .ok s1
      else
        let s2 := stagnationStep s1
        if s2.stagnant ≥ STAGNATION_THRESHOLD then .ok s2
        else runRoundsAiHr env (idx + 1) fuel s2

/-- The harvest body of the robust variant: initial navigation, initial
block detection, then the round loop. -/
def runHarvestAiHr (env : HarvestEnv) : Except HarvestError LoopState :=
  if env.initNavOk then
    if env.blockAtInit then .error .blockedInitial
    else runRoundsAiHr env 0 MAX_SCROLL_ROUNDS initialLoopState
  else .error .navTimeoutSearch

/-- `withHardTimeout(p, ms)` races `p` against a `setTimeout(ms)` timer:
if `p` settles strictly before the timer fires the race yields `p`'s
outcome, otherwise the timer's rejection. `settleMs` is the wall-clock
duration after which `p` would settle. -/
def withHardTimeout {α : Type} (outcome : Except HarvestError α)
    (settleMs ms : Nat) : Except HarvestError α :=
  if settleMs < ms then outcome else .error .harvestTimeout

/-- `fetchLinkedInJobsAiHr` of the robust variant. -/
def fetchLinkedInJobsAiHr (env : HarvestEnv) : Except HarvestError (List ApiJob) :=
  withHardTimeout ((runHarvestAiHr env).map LoopState.jobs) env.settleMs HARD_RUN_TIMEOUT_MS

/-- The round loop of the legacy variant. -/
def runRoundsAiHrV1 (env : HarvestEnv) : Nat → Nat → LoopState → LoopState
  | _, 0, s => s
  | idx, fuel + 1, s =>
    let s1 := processCandidates MAX_RESULTS_TO_PROCESS_V1 (fun _ => true)
      env.detailsAtV1 (normalizeHrefList (env.hrefsAt idx)) s
    if s1.jobs.length ≥ MAX_RESULTS_TO_PROCESS_V1 then s1
    else
      let s2 := stagnationStepV1 s1
      if s2.stagnant ≥ STAGNATION_THRESHOLD_V1 then s2
      else runRoundsAiHrV1 env (idx + 1) fuel s2

/-- `fetchLinkedInJobsAiHr` of the legacy variant (no hard timeout, no
block detection; the uncaught initial `page.goto` can still reject). -/
def fetchLinkedInJobsAiHrV1 (env : HarvestEnv) : Except HarvestError (List ApiJob) :=
  if env.initNavOk then
    .ok (runRoundsAiHrV1 env 0 MAX_SCROLL_ROUNDS_V1 initialLoopState).jobs
  else .error .navTimeoutSearch

/-- Jobs of an engine outcome (`[]` on a fault). -/
def jobsOf : Except HarvestError (List ApiJob) → List ApiJob
  | .ok js => js
  | .error _ => []

/-- Final state of an engine outcome (initial state on a fault). -/
def stateOf : Except HarvestError LoopState → LoopState
  | .ok s => s
  | .error _ => initialLoopState

/-! ## Concrete environments for witnesses and counterexamples -/

/-- A detail page on which every read fails. -/
def pageNone : PageEnv := ⟨none, none, none, none, none, none⟩

/-- A canonical job detail URL. -/
def viewUrl (n : Nat) : Str := "https://www.linkedin.com/jobs/view/".data ++ Nat.toDigits 10 n

/-- Environment with an empty, unblocked list and instant settling. -/
def envTriv : HarvestEnv where
  initNavOk := true
  blockAtInit := false
  blockAtRound := fun _ => false
  hrefsAt := fun _ => []
  jobNavOk := fun _ => true
  pageAt := fun _ => pageNone
  jsParse := fun _ => none
  detailsAtV1 := fun _ => ⟨[], [], [], []⟩
  settleMs := 0

/-- A description mentioning both topics (and longer than 50 chars). -/
def descBoth : Str :=
  "We use machine learning to help human resources and recruiting teams work better every day".data

/-- A detail page whose description mentions both topics. -/
def pageBoth : PageEnv := { pageNone with descText := some descBoth }

/-- Environment exposing the same two matching candidates every round. -/
def envTwoMatching : HarvestEnv :=
  { envTriv with
      hrefsAt := fun _ => [viewUrl 1, viewUrl 2],
      pageAt := fun _ => pageBoth }

/-- A description mentioning only topic A (AI), longer than 50 chars. -/
def descOnlyAI : Str :=
  "Cutting edge machine learning and artificial intelligence research on large language model systems".data

/-- A detail page whose description mentions only topic A (AI). -/
def pageOnlyAI : PageEnv := { pageNone with descText := some descOnlyAI }

/-- Scenario A environment: three candidates whose pages contain only
topic-A terms. -/
def envOnlyAI : HarvestEnv :=
  { envTriv with
      hrefsAt := fun _ => [viewUrl 1, viewUrl 2, viewUrl 3],
      pageAt := fun _ => pageOnlyAI }

/-- Environment in which scrolling reveals one brand-new candidate every
round (the seen-set grows each round), with non-matching detail pages. -/
def envFreshEachRound : HarvestEnv :=
  { envTriv with hrefsAt := fun r => [viewUrl (r + 1)] }

example : fetchLinkedInJobsAiHr envTriv = .ok [] := rfl
example : fetchLinkedInJobsAiHrV1 envTriv = .ok [] := rfl
example : (stateOf (runHarvestAiHr envFreshEachRound)).stagnant = 5 := by decide
example : (stateOf (runHarvestAiHr envFreshEachRound)).seen.length = 5 := by decide
example : (jobsOf (fetchLinkedInJobsAiHr envTwoMatching)).length = 2 := by decide
example : jobsOf (fetchLinkedInJobsAiHr envOnlyAI) = [] := by decide

/-! ## Properties of `normalizeJobUrl` -/

/-- Decomposing an infix of an append: the occurrence lies in the left
part, in the right part, or crosses the junction (a nonempty suffix of the
left part followed by a nonempty prefix of the right part). -/
theorem infix_append_split {α : Type} {l a b : List α} (h : l <:+: a ++ b) :
    l <:+: a ∨ l <:+: b ∨
      ∃ l₁ l₂, l₁ ≠ [] ∧ l₂ ≠ [] ∧ l = l₁ ++ l₂ ∧ l₁ <:+ a ∧ l₂ <+: b := by
  induction a with
  | nil => exact Or.inr (Or.inl (by simpa using h))
  | cons c a' ih =>
    rw [List.cons_append, List.infix_cons_iff] at h
    rcases h with hpre | hinf
    · rcases List.prefix_cons_iff.mp hpre with hnil | ⟨t, rfl, ht⟩
      · exact Or.inl (hnil ▸ List.nil_infix)
      · by_cases hlen : t.length ≤ a'.length
        · have hta : t <+: a' := by
            have hteq : t = (a' ++ b).take t.length := List.prefix_iff_eq_take.mp ht
            rw [List.take_append_of_le_length hlen] at hteq
            exact hteq ▸ List.take_prefix _ _
          exact Or.inl (List.IsPrefix.isInfix (List.cons_prefix_cons.mpr ⟨rfl, hta⟩))
        · have hlen' : a'.length ≤ t.length := Nat.le_of_lt (Nat.lt_of_not_le hlen)
          have hteq : t = a' ++ b.take (t.length - a'.length) := by
            have h0 : t = (a' ++ b).take t.length := List.prefix_iff_eq_take.mp ht
            rw [List.take_append_eq_append_take, List.take_of_length_le hlen'] at h0
            exact h0
          refine Or.inr (Or.inr ⟨c :: a', b.take (t.length - a'.length),
            by simp, ?_, ?_, List.suffix_refl _, List.take_prefix _ _⟩)
          · intro hnil2
            have := congrArg List.length hteq
            rw [hnil2] at this
            simp at this
            omega
          · rw [List.cons_append, ← hteq]
    · rcases ih hinf with h1 | h2 | ⟨l₁, l₂, hn1, hn2, heq, hsuf, hpre2⟩
      · exact Or.inl (List.infix_cons h1)
      · exact Or.inr (Or.inl h2)
      · obtain ⟨r, hr⟩ := hsuf
        exact Or.inr (Or.inr ⟨l₁, l₂, hn1, hn2, heq,
          ⟨c :: r, by rw [← hr]; rfl⟩, hpre2⟩)

/-- The path marker cannot occur inside the prepended origin nor straddle
the junction: an occurrence in `origin ++ x` is an occurrence in `x`. -/
theorem marker_infix_drop_origin {x : Str}
    (h : jobsViewMarker <:+: linkedinOrigin ++ x) : jobsViewMarker <:+: x := by
  rcases infix_append_split h with h1 | h2 | ⟨l₁, l₂, hn1, hn2, heq, hsuf, _⟩
  · exact absurd h1 (by decide)
  · exact h2
  · exfalso
    have hl₁ : l₁ = jobsViewMarker.take l₁.length := by rw [heq, List.take_left]
    have hsum : l₁.length + l₂.length = 11 := by
      have hc := congrArg List.length heq
      simp [jobsViewMarker] at hc
      omega
    have hpos2 : 0 < l₂.length := List.length_pos.mpr hn2
    have hlt : l₁.length < 11 := by omega
    have hpos1 : 0 < l₁.length := List.length_pos.mpr hn1
    have hall : ∀ n, n < 11 → 0 < n → ¬ (jobsViewMarker.take n <:+ linkedinOrigin) := by
      decide
    exact hall l₁.length hlt hpos1 (hl₁ ▸ hsuf)

/-- A nonempty `takeWhile` result starts where the list starts. -/
theorem head_of_takeWhile {p : Char → Bool} {l : Str} {c : Char}
    (h : (l.takeWhile p).head? = some c) : l.head? = some c := by
  cases l with
  | nil => simp at h
  | cons a t =>
    by_cases hpa : p a
    · simp [List.takeWhile_cons, hpa] at h
      simp [h]
    · simp [List.takeWhile_cons, hpa] at h

/-- C8 helper: an input without the `/jobs/view/` marker is discarded. -/
theorem normalizeJobUrl_none_of_no_marker {x : Str}
    (h : ¬ jobsViewMarker <:+: x) : normalizeJobUrl x = none := by
  by_cases hx : x = []
  · simp [normalizeJobUrl, hx]
  · by_cases hh : x.head? = some '/'
    · simp only [normalizeJobUrl, hx, if_false, hh, if_true]
      exact if_neg (fun hm => h (marker_infix_drop_origin hm))
    · simp [normalizeJobUrl, hx, hh, h]

/-- C7 (amended): `normalizeJobUrl` is idempotent on every input whose
canonical key still contains the `/jobs/view/` marker (equivalently,
whenever the first `?` does not cut into or before the marker). -/
theorem normalizeJobUrl_idem_on_shaped (x k : Str)
    (h1 : normalizeJobUrl x = some k) (h2 : jobsViewMarker <:+: k) :
    normalizeJobUrl k = some k := by
  have hkne : k ≠ [] := by
    intro he
    rw [he, List.infix_nil] at h2
    exact absurd h2 (by decide)
  simp only [normalizeJobUrl] at h1
  by_cases hx : x = []
  · simp [hx] at h1
  · simp only [hx, if_false] at h1
    by_cases hm : jobsViewMarker <:+: (if x.head? = some '/' then linkedinOrigin ++ x else x)
    · rw [if_pos hm] at h1
      injection h1 with hk
      have hkh : k.head? ≠ some '/' := by
        intro hkh
        have habsh := head_of_takeWhile (hk ▸ hkh)
        by_cases hh : x.head? = some '/'
        · rw [if_pos hh] at habsh
          have hcons : linkedinOrigin = 'h' :: "ttps://www.linkedin.com".data := by decide
          rw [hcons, List.cons_append] at habsh
          simp at habsh
        · rw [if_neg hh] at habsh
          exact hh habsh
      simp only [normalizeJobUrl, hkne, if_false]
      rw [if_neg hkh, if_pos h2, ← hk, List.takeWhile_idem]
    · rw [if_neg hm] at h1
      cases h1

/-- C7 counterexample: the claim as stated (idempotence for every input
with a non-null key) fails when the first `?` precedes the marker: the
key of `https://a?/jobs/view/1` is `https://a`, whose own normalization is
`null`, not the key. -/
theorem normalizeJobUrl_idem_cex :
    normalizeJobUrl "https://a?/jobs/view/1".data = some "https://a".data ∧
      normalizeJobUrl "https://a".data = none := by decide

/-- C7 witness: a canonical key containing the marker is a fixed point. -/
theorem normalizeJobUrl_idem_witness :
    normalizeJobUrl "https://www.linkedin.com/jobs/view/123".data
      = some "https://www.linkedin.com/jobs/view/123".data :=
  normalizeJobUrl_idem_on_shaped "/jobs/view/123?refId=9".data
    "https://www.linkedin.com/jobs/view/123".data (by decide) (by decide)

/-- C8 (amended): every produced key is free of a query component (the
text from the first `?` on is stripped), and every input not containing
the `/jobs/view/` path marker is discarded; fragments, however, are NOT
stripped (see the counterexample). -/
theorem normalizeJobUrl_query_stripped_and_shape_checked :
    (∀ x k : Str, normalizeJobUrl x = some k → '?' ∉ k) ∧
      (∀ x : Str, ¬ jobsViewMarker <:+: x → normalizeJobUrl x = none) := by
  constructor
  · intro x k h hq
    simp only [normalizeJobUrl] at h
    by_cases hx : x = []
    · simp [hx] at h
    · simp only [hx, if_false] at h
      by_cases hm : jobsViewMarker <:+: (if x.head? = some '/' then linkedinOrigin ++ x else x)
      · rw [if_pos hm] at h
        injection h with hk
        rw [← hk] at hq
        have := List.mem_takeWhile_imp hq
        simp at this
      · rw [if_neg hm] at h
        cases h
  · exact fun x h => normalizeJobUrl_none_of_no_marker h

/-- C8 counterexample: a `#` fragment survives canonicalization, so the
claim that the returned key never contains a fragment component is false. -/
theorem normalizeJobUrl_fragment_kept_cex :
    normalizeJobUrl "https://www.linkedin.com/jobs/view/123#top".data
        = some "https://www.linkedin.com/jobs/view/123#top".data ∧
      '#' ∈ "https://www.linkedin.com/jobs/view/123#top".data := by decide

/-- C8 witness: the amended claim at concrete inputs. -/
theorem normalizeJobUrl_query_stripped_witness :
    ('?' ∉ "https://www.linkedin.com/jobs/view/123".data) ∧
      normalizeJobUrl "https://example.com/feed".data = none :=
  ⟨normalizeJobUrl_query_stripped_and_shape_checked.1 "/jobs/view/123?refId=9".data
      "https://www.linkedin.com/jobs/view/123".data (by decide),
    normalizeJobUrl_query_stripped_and_shape_checked.2 "https://example.com/feed".data
      (by decide)⟩

/-! ## Invariants of the candidate loop and the round loops -/

/-- Once the cap is reached, the candidate loop does nothing at all. -/
theorem processCandidates_at_cap (maxResults : Nat) (navOk : Str → Bool)
    (details : Str → JobDetails) (hrefs : List Str) (s : LoopState)
    (h : s.jobs.length = maxResults) :
    processCandidates maxResults navOk details hrefs s = s := by
  cases hrefs with
  | nil => rfl
  | cons url rest =>
    simp only [processCandidates]
    rw [if_pos (by omega)]

/-- The candidate loop never pushes past the cap. -/
theorem processCandidates_length_le (maxResults : Nat) (navOk : Str → Bool)
    (details : Str → JobDetails) :
    ∀ (hrefs : List Str) (s : LoopState), s.jobs.length ≤ maxResults →
      (processCandidates maxResults navOk details hrefs s).jobs.length ≤ maxResults := by
  intro hrefs
  induction hrefs with
  | nil => intro s h; simpa [processCandidates] using h
  | cons url rest ih =>
    intro s h
    simp only [processCandidates]
    by_cases hcap : s.jobs.length ≥ maxResults
    · rw [if_pos hcap]; exact h
    · rw [if_neg hcap]
      by_cases hseen : url ∈ s.seen
      · rw [if_pos hseen]; exact ih s h
      · rw [if_neg hseen]
        by_cases hnav : navOk url = true
        · rw [if_pos hnav]
          by_cases hok : (matchesAIandHR (haystackOf (details url))).ok = true
          · rw [if_pos hok]
            refine ih _ ?_
            simp
            omega
          · rw [if_neg hok]; exact ih _ h
        · rw [if_neg hnav]; exact ih _ h

/-- Joint structural invariant: result links are pairwise distinct and
drawn from the seen-set, dispatched keys are pairwise distinct and drawn
from the seen-set. -/
def GoodState (s : LoopState) : Prop :=
  (s.jobs.map ApiJob.link).Nodup ∧ (∀ j ∈ s.jobs, j.link ∈ s.seen) ∧
    s.trace.Nodup ∧ (∀ k ∈ s.trace, k ∈ s.seen)

theorem goodState_initial : GoodState initialLoopState := by
  refine ⟨by simp [initialLoopState], ?_, by simp [initialLoopState], ?_⟩ <;>
    simp [initialLoopState]

/-- The candidate loop preserves the joint invariant: a candidate is
dispatched (and can contribute a result) only after the `seen.has` check
failed, and its key enters `seen` in the same step. -/
theorem processCandidates_good (maxResults : Nat) (navOk : Str → Bool)
    (details : Str → JobDetails) :
    ∀ (hrefs : List Str) (s : LoopState), GoodState s →
      GoodState (processCandidates maxResults navOk details hrefs s) := by
  intro hrefs
  induction hrefs with
  | nil => intro s h; simpa [processCandidates] using h
  | cons url rest ih =>
    intro s h
    obtain ⟨h1, h2, h3, h4⟩ := h
    simp only [processCandidates]
    by_cases hcap : s.jobs.length ≥ maxResults
    · rw [if_pos hcap]; exact ⟨h1, h2, h3, h4⟩
    · rw [if_neg hcap]
      by_cases hseen : url ∈ s.seen
      · rw [if_pos hseen]; exact ih s ⟨h1, h2, h3, h4⟩
      · rw [if_neg hseen]
        have htrace : url ∉ s.trace := fun hmem => hseen (h4 url hmem)
        have hlink : url ∉ s.jobs.map ApiJob.link := by
          intro hmem
          obtain ⟨j, hj, hje⟩ := List.mem_map.mp hmem
          exact hseen (hje ▸ h2 j hj)
        have hgood1 : GoodState { s with seen := s.seen ++ [url], trace := s.trace ++ [url] } := by
          refine ⟨h1, fun j hj => ?_, ?_, fun k hk => ?_⟩
          · exact List.mem_append_left _ (h2 j hj)
          · show (s.trace ++ [url]).Nodup
            rw [← List.concat_eq_append]
            exact List.Nodup.concat htrace h3
          · rcases List.mem_append.mp hk with hk | hk
            · exact List.mem_append_left _ (h4 k hk)
            · simp at hk
              simp [hk]
        by_cases hnav : navOk url = true
        · rw [if_pos hnav]
          by_cases hok : (matchesAIandHR (haystackOf (details url))).ok = true
          · rw [if_pos hok]
            refine ih _ ?_
            obtain ⟨g1, g2, g3, g4⟩ := hgood1
            refine ⟨?_, fun j hj => ?_, g3, g4⟩
            · show (List.map ApiJob.link (s.jobs ++ [mkApiJob url (details url)])).Nodup
              simp only [List.map_append, List.map_cons, List.map_nil, mkApiJob]
              rw [← List.concat_eq_append]
              exact List.Nodup.concat hlink h1
            · show j.link ∈ s.seen ++ [url]
              have hj' : j ∈ s.jobs ++ [mkApiJob url (details url)] := hj
              rcases List.mem_append.mp hj' with hj2 | hj2
              · exact List.mem_append_left _ (h2 j hj2)
              · simp at hj2
                simp [hj2, mkApiJob]
          · rw [if_neg hok]; exact ih _ hgood1
        · rw [if_neg hnav]; exact ih _ hgood1

/-- The robust stagnation update compares `seen.size` against a `prevSeen`
captured after the very same round's growth, so it increments the counter
unconditionally. -/
theorem stagnationStep_eq (s : LoopState) :
    stagnationStep s = { s with stagnant := s.stagnant + 1 } := by
  simp [stagnationStep]

/-- Generic preservation along the robust round loop for properties of
the data fields (`jobs`, `seen`, `trace`). -/
theorem runRoundsAiHr_preserves (env : HarvestEnv) (P : LoopState → Prop)
    (hpc : ∀ idx s, P s →
      P (processCandidates MAX_RESULTS_TO_PROCESS env.jobNavOk (detailsOfEnv env)
          (normalizeHrefList (env.hrefsAt idx)) s))
    (hstag : ∀ (s : LoopState) (n : Nat), P s → P { s with stagnant := n }) :
    ∀ (fuel idx : Nat) (s s' : LoopState), P s →
      runRoundsAiHr env idx fuel s = .ok s' → P s' := by
  intro fuel
  induction fuel with
  | zero =>
    intro idx s s' hp hrun
    simp only [runRoundsAiHr] at hrun
    injection hrun with h
    exact h ▸ hp
  | succ fuel ih =>
    intro idx s s' hp hrun
    simp only [runRoundsAiHr] at hrun
    by_cases hb : env.blockAtRound idx = true
    · rw [if_pos hb] at hrun; exact absurd hrun (by simp)
    · rw [if_neg hb] at hrun
      set s1 := processCandidates MAX_RESULTS_TO_PROCESS env.jobNavOk (detailsOfEnv env)
        (normalizeHrefList (env.hrefsAt idx)) s with hs1
      have hp1 : P s1 := hpc idx s hp
      have hp2 : P { s1 with stagnant := s1.stagnant + 1 } := hstag s1 (s1.stagnant + 1) hp1
      by_cases hcap : s1.jobs.length ≥ MAX_RESULTS_TO_PROCESS
      · rw [if_pos hcap] at hrun
        injection hrun with h
        exact h ▸ hp1
      · rw [if_neg hcap] at hrun
        rw [stagnationStep_eq] at hrun
        by_cases hst : ({ s1 with stagnant := s1.stagnant + 1 } : LoopState).stagnant
            ≥ STAGNATION_THRESHOLD
        · rw [if_pos hst] at hrun
          injection hrun with h
          exact h ▸ hp2
        · rw [if_neg hst] at hrun
          exact ih _ _ _ hp2 hrun

/-- Generic preservation along the legacy round loop. -/
theorem runRoundsAiHrV1_preserves (env : HarvestEnv) (P : LoopState → Prop)
    (hpc : ∀ idx s, P s →
      P (processCandidates MAX_RESULTS_TO_PROCESS_V1 (fun _ => true) env.detailsAtV1
          (normalizeHrefList (env.hrefsAt idx)) s))
    (hstag : ∀ (s : LoopState) (n m : Nat), P s → P { s with stagnant := n, lastSeen := m }) :
    ∀ (fuel idx : Nat) (s : LoopState), P s →
      P (runRoundsAiHrV1 env idx fuel s) := by
  intro fuel
  induction fuel with
  | zero => intro idx s hp; exact hp
  | succ fuel ih =>
    intro idx s hp
    simp only [runRoundsAiHrV1]
    set s1 := processCandidates MAX_RESULTS_TO_PROCESS_V1 (fun _ => true) env.detailsAtV1
      (normalizeHrefList (env.hrefsAt idx)) s with hs1
    have hp1 : P s1 := hpc idx s hp
    have hp2 : P (stagnationStepV1 s1) := by
      unfold stagnationStepV1
      by_cases hc : s1.seen.length = s1.lastSeen
      · rw [if_pos hc]; exact hstag s1 _ _ hp1
      · rw [if_neg hc]; exact hstag s1 _ _ hp1
    by_cases hcap : s1.jobs.length ≥ MAX_RESULTS_TO_PROCESS_V1
    · rw [if_pos hcap]; exact hp1
    · rw [if_neg hcap]
      by_cases hst : (stagnationStepV1 s1).stagnant ≥ STAGNATION_THRESHOLD_V1
      · rw [if_pos hst]; exact hp2
      · rw [if_neg hst]; exact ih _ _ hp2

/-- Unpack a successful robust-variant fetch into its harvest state. -/
theorem fetch_ok_elim {env : HarvestEnv} {jobs : List ApiJob}
    (h : fetchLinkedInJobsAiHr env = .ok jobs) :
    ∃ s', runRoundsAiHr env 0 MAX_SCROLL_ROUNDS initialLoopState = .ok s' ∧ s'.jobs = jobs := by
  unfold fetchLinkedInJobsAiHr withHardTimeout at h
  by_cases hs : env.settleMs < HARD_RUN_TIMEOUT_MS
  · rw [if_pos hs] at h
    unfold runHarvestAiHr at h
    by_cases hn : env.initNavOk = true
    · rw [if_pos hn] at h
      by_cases hbi : env.blockAtInit = true
      · rw [if_pos hbi] at h
        simp only [Except.map] at h
        exact Except.noConfusion h
      · rw [if_neg hbi] at h
        cases hr : runRoundsAiHr env 0 MAX_SCROLL_ROUNDS initialLoopState with
        | ok s' =>
          rw [hr] at h
          simp only [Except.map] at h
          injection h with h
          exact ⟨s', rfl, h⟩
        | error e =>
          rw [hr] at h
          simp only [Except.map] at h
          exact Except.noConfusion h
    · rw [if_neg hn] at h
      simp only [Except.map] at h
      exact Except.noConfusion h
  · rw [if_neg hs] at h; exact Except.noConfusion h

/-- Unpack a successful legacy-variant fetch. -/
theorem fetchV1_ok_elim {env : HarvestEnv} {jobs : List ApiJob}
    (h : fetchLinkedInJobsAiHrV1 env = .ok jobs) :
    (runRoundsAiHrV1 env 0 MAX_SCROLL_ROUNDS_V1 initialLoopState).jobs = jobs := by
  unfold fetchLinkedInJobsAiHrV1 at h
  by_cases hn : env.initNavOk = true
  · rw [if_pos hn] at h
    exact Except.ok.inj h
  · rw [if_neg hn] at h; exact Except.noConfusion h

/-- Unpack a successful robust harvest body. -/
theorem runHarvest_ok_elim {env : HarvestEnv} {s' : LoopState}
    (h : runHarvestAiHr env = .ok s') :
    runRoundsAiHr env 0 MAX_SCROLL_ROUNDS initialLoopState = .ok s' := by
  unfold runHarvestAiHr at h
  by_cases hn : env.initNavOk = true
  · rw [if_pos hn] at h
    by_cases hbi : env.blockAtInit = true
    · rw [if_pos hbi] at h; exact absurd h (by simp)
    · rw [if_neg hbi] at h; exact h
  · rw [if_neg hn] at h; exact absurd h (by simp)

/-! ## Claim theorems C1 - C3 -/

/-- C1: in both engine variants the number of accumulated result records
never exceeds the configured maximum: every successful run returns at most
`MAX_RESULTS_TO_PROCESS` records, and once the cap is reached the
candidate loop stops processing candidates entirely (it is the identity on
the state), which the loop checks before each candidate. -/
theorem harvest_results_capped :
    (∀ (env : HarvestEnv) (jobs : List ApiJob),
        fetchLinkedInJobsAiHr env = .ok jobs → jobs.length ≤ MAX_RESULTS_TO_PROCESS) ∧
      (∀ (env : HarvestEnv) (jobs : List ApiJob),
        fetchLinkedInJobsAiHrV1 env = .ok jobs → jobs.length ≤ MAX_RESULTS_TO_PROCESS_V1) ∧
      (∀ (maxResults : Nat) (navOk : Str → Bool) (details : Str → JobDetails)
          (hrefs : List Str) (s : LoopState), s.jobs.length = maxResults →
        processCandidates maxResults navOk details hrefs s = s) := by
  refine ⟨?_, ?_, processCandidates_at_cap⟩
  · intro env jobs h
    obtain ⟨s', hr, hj⟩ := fetch_ok_elim h
    have hp := runRoundsAiHr_preserves env (fun s => s.jobs.length ≤ MAX_RESULTS_TO_PROCESS)
      (fun idx s hp => processCandidates_length_le _ _ _ _ s hp)
      (fun s n hp => hp) MAX_SCROLL_ROUNDS 0 initialLoopState s'
      (by simp [initialLoopState]) hr
    exact hj ▸ hp
  · intro env jobs h
    have hj := fetchV1_ok_elim h
    have hp := runRoundsAiHrV1_preserves env (fun s => s.jobs.length ≤ MAX_RESULTS_TO_PROCESS_V1)
      (fun idx s hp => processCandidates_length_le _ _ _ _ s hp)
      (fun s n m hp => hp) MAX_SCROLL_ROUNDS_V1 0 initialLoopState
      (by simp [initialLoopState])
    exact hj ▸ hp

/-- C1 witness at concrete runs. -/
theorem harvest_results_capped_witness :
    (jobsOf (fetchLinkedInJobsAiHr envTriv)).length ≤ MAX_RESULTS_TO_PROCESS ∧
      (jobsOf (fetchLinkedInJobsAiHrV1 envTriv)).length ≤ MAX_RESULTS_TO_PROCESS_V1 ∧
      processCandidates 0 (fun _ => true) (fun _ => ⟨[], [], [], []⟩)
        [viewUrl 1] initialLoopState = initialLoopState :=
  ⟨harvest_results_capped.1 envTriv _ rfl,
    harvest_results_capped.2.1 envTriv _ rfl,
    harvest_results_capped.2.2 0 _ _ _ _ rfl⟩

/-- C2: in both engine variants all `link` (sourceLink) values of a
successful run's result sequence are pairwise distinct: a candidate key
already in the seen-set is skipped, and every recorded link has entered
the seen-set when it is recorded. -/
theorem harvest_links_distinct :
    (∀ (env : HarvestEnv) (jobs : List ApiJob), fetchLinkedInJobsAiHr env = .ok jobs →
        (jobs.map ApiJob.link).Nodup) ∧
      (∀ (env : HarvestEnv) (jobs : List ApiJob), fetchLinkedInJobsAiHrV1 env = .ok jobs →
        (jobs.map ApiJob.link).Nodup) := by
  constructor
  · intro env jobs h
    obtain ⟨s', hr, hj⟩ := fetch_ok_elim h
    have hg : GoodState s' := runRoundsAiHr_preserves env GoodState
      (fun idx s hp => processCandidates_good _ _ _ _ s hp)
      (fun s n hp => hp) _ _ _ _ goodState_initial hr
    exact hj ▸ hg.1
  · intro env jobs h
    have hj := fetchV1_ok_elim h
    have hg : GoodState (runRoundsAiHrV1 env 0 MAX_SCROLL_ROUNDS_V1 initialLoopState) :=
      runRoundsAiHrV1_preserves env GoodState
        (fun idx s hp => processCandidates_good _ _ _ _ s hp)
        (fun s n m hp => hp) _ _ _ goodState_initial
    exact hj ▸ hg.1

/-- C2 witness at a concrete run producing two records. -/
theorem harvest_links_distinct_witness :
    ((jobsOf (fetchLinkedInJobsAiHr envTwoMatching)).map ApiJob.link).Nodup ∧
      ((jobsOf (fetchLinkedInJobsAiHrV1 envTriv)).map ApiJob.link).Nodup :=
  ⟨harvest_links_distinct.1 envTwoMatching _ rfl,
    harvest_links_distinct.2 envTriv _ rfl⟩

/-- C3: in both engine variants a candidate key is recorded in the
seen-set in the same step that dispatches it (before extraction runs), and
a key is never dispatched to detail extraction twice across the whole run,
even when rediscovered in a later round: the ghost dispatch trace is
duplicate-free and contained in the seen-set. -/
theorem seen_before_dispatch_no_redispatch :
    (∀ (env : HarvestEnv) (s : LoopState), runHarvestAiHr env = .ok s →
        s.trace.Nodup ∧ ∀ k ∈ s.trace, k ∈ s.seen) ∧
      (∀ env : HarvestEnv,
        (runRoundsAiHrV1 env 0 MAX_SCROLL_ROUNDS_V1 initialLoopState).trace.Nodup ∧
          ∀ k ∈ (runRoundsAiHrV1 env 0 MAX_SCROLL_ROUNDS_V1 initialLoopState).trace,
            k ∈ (runRoundsAiHrV1 env 0 MAX_SCROLL_ROUNDS_V1 initialLoopState).seen) := by
  constructor
  · intro env s h
    have hr := runHarvest_ok_elim h
    have hg : GoodState s := runRoundsAiHr_preserves env GoodState
      (fun idx s hp => processCandidates_good _ _ _ _ s hp)
      (fun s n hp => hp) _ _ _ _ goodState_initial hr
    exact ⟨hg.2.2.1, hg.2.2.2⟩
  · intro env
    have hg : GoodState (runRoundsAiHrV1 env 0 MAX_SCROLL_ROUNDS_V1 initialLoopState) :=
      runRoundsAiHrV1_preserves env GoodState
        (fun idx s hp => processCandidates_good _ _ _ _ s hp)
        (fun s n m hp => hp) _ _ _ goodState_initial
    exact ⟨hg.2.2.1, hg.2.2.2⟩

/-- C3 witness at a concrete run that rediscovers its candidates in every
round. -/
theorem seen_before_dispatch_witness :
    (stateOf (runHarvestAiHr envTwoMatching)).trace.Nodup ∧
      ∀ k ∈ (stateOf (runHarvestAiHr envTwoMatching)).trace,
        k ∈ (stateOf (runHarvestAiHr envTwoMatching)).seen :=
  seen_before_dispatch_no_redispatch.1 envTwoMatching _ rfl

/-! ## Claim theorems C4 - C6 -/

/-- C4: evidence for the stagnation-counter defect of the robust variant.
The governor is supposed to reset the counter to 0 when the seen-set grew
during the round (as the legacy variant and the adjacent source comment
do), but the robust variant captures `prevSeen` from `seen.size` only
after the round's candidate processing and compares against the unchanged
`seen.size` (the re-collected post-scroll href set is computed and then
ignored), so the counter increments unconditionally every round: on an
environment revealing one brand-new candidate per round the run still
terminates as stagnant after `STAGNATION_THRESHOLD` rounds, with the
seen-set having grown in every single round. -/
theorem stagnation_counter_code_bug :
    (∀ s : LoopState, stagnationStep s = { s with stagnant := s.stagnant + 1 }) ∧
      (stateOf (runHarvestAiHr envFreshEachRound)).stagnant = STAGNATION_THRESHOLD ∧
      (stateOf (runHarvestAiHr envFreshEachRound)).seen.length = STAGNATION_THRESHOLD ∧
      (stateOf (runHarvestAiHr envFreshEachRound)).jobs = [] :=
  ⟨stagnationStep_eq, by decide, by decide, by decide⟩

/-- C5: the whole harvest races against the global wall-clock deadline
`HARD_RUN_TIMEOUT_MS`; whenever the work would settle only after the
deadline, the engine yields the timeout fault instead of the harvest's
own outcome. -/
theorem harvest_hard_timeout (env : HarvestEnv)
    (h : HARD_RUN_TIMEOUT_MS < env.settleMs) :
    fetchLinkedInJobsAiHr env = .error .harvestTimeout := by
  unfold fetchLinkedInJobsAiHr withHardTimeout
  rw [if_neg (by omega)]

/-- An environment whose work exceeds the global deadline. -/
def envSlow : HarvestEnv := { envTriv with settleMs := HARD_RUN_TIMEOUT_MS + 1 }

/-- C5 witness. -/
theorem harvest_hard_timeout_witness :
    fetchLinkedInJobsAiHr envSlow = .error .harvestTimeout :=
  harvest_hard_timeout envSlow (by decide)

/-- When no dispatched candidate's text passes the topic-B (HR) pattern
set, the candidate loop never appends a record. -/
theorem processCandidates_jobs_of_noHR (maxResults : Nat) (navOk : Str → Bool)
    (details : Str → JobDetails)
    (hno : ∀ url, testHR (haystackOf (details url)) = false) :
    ∀ (hrefs : List Str) (s : LoopState),
      (processCandidates maxResults navOk details hrefs s).jobs = s.jobs := by
  intro hrefs
  induction hrefs with
  | nil => intro s; rfl
  | cons url rest ih =>
    intro s
    simp only [processCandidates]
    by_cases hcap : s.jobs.length ≥ maxResults
    · rw [if_pos hcap]
    · rw [if_neg hcap]
      by_cases hseen : url ∈ s.seen
      · rw [if_pos hseen]; exact ih s
      · rw [if_neg hseen]
        by_cases hnav : navOk url = true
        · rw [if_pos hnav]
          by_cases hok : (matchesAIandHR (haystackOf (details url))).ok = true
          · exfalso
            have hre : (matchesAIandHR (haystackOf (details url))).ok
                = (testAI (haystackOf (details url)) && testHR (haystackOf (details url))) := rfl
            rw [hre, hno url, Bool.and_false] at hok
            exact Bool.false_ne_true hok
          · rw [if_neg hok]; exact ih _
        · rw [if_neg hnav]; exact ih _

/-- C6: the content filter accepts exactly when both the topic-A and the
topic-B pattern set match the concatenated
title + organization + description at least once (case-insensitively,
word-boundary-aware), and consequently a run whose detail pages never
match the topic-B set returns an empty result sequence — in particular a
list whose pages contain only topic-A terms yields no records. -/
theorem content_filter_conjunctive :
    (∀ t : Str, (matchesAIandHR t).ok = (testAI t && testHR t)) ∧
      (∀ env : HarvestEnv,
        (∀ url : Str, testHR (haystackOf (detailsOfEnv env url)) = false) →
          jobsOf (fetchLinkedInJobsAiHr env) = []) := by
  constructor
  · intro t; rfl
  · intro env hno
    cases hf : fetchLinkedInJobsAiHr env with
    | error e => rfl
    | ok jobs =>
      obtain ⟨s', hr, hj⟩ := fetch_ok_elim hf
      have hp : s'.jobs = [] := runRoundsAiHr_preserves env (fun s => s.jobs = [])
        (fun idx s hp => by
          show (processCandidates MAX_RESULTS_TO_PROCESS env.jobNavOk (detailsOfEnv env)
            (normalizeHrefList (env.hrefsAt idx)) s).jobs = []
          rw [processCandidates_jobs_of_noHR MAX_RESULTS_TO_PROCESS env.jobNavOk
            (detailsOfEnv env) hno]
          exact hp)
        (fun s n hp => hp) _ _ _ _ rfl hr
      show jobs = []
      rw [← hj]
      exact hp

/-- C6 witness: Scenario A, three candidates whose pages contain only
topic-A terms. -/
theorem content_filter_conjunctive_witness :
    ((matchesAIandHR descOnlyAI).ok = (testAI descOnlyAI && testHR descOnlyAI)) ∧
      jobsOf (fetchLinkedInJobsAiHr envOnlyAI) = [] :=
  ⟨content_filter_conjunctive.1 descOnlyAI,
    content_filter_conjunctive.2 envOnlyAI (fun url => by
      have h : detailsOfEnv envOnlyAI url = readJobPageDetails (fun _ => none) pageOnlyAI := rfl
      rw [h]
      decide)⟩

/-! ## Claim theorems C9 - C10 -/

/-- C9 (amended): the detail extractor is a total function returning a
best-effort record (every Playwright read is individually
`.catch`-guarded, which the `Option`-valued page snapshot reflects): each
output field depends only on its own page reads, so a failed read of one
field never changes another, and when every read fails the extractor
still returns the documented fallback record instead of raising — an
unreadable description or posting date degrades to the empty string,
while an unreadable title or organization degrades to the
`(unknown title)` / `(unknown company)` placeholder, not to the empty
string the claim states (see the counterexample). -/
theorem extractor_best_effort :
    (∀ (parse : Str → Option UtcView) (p₁ p₂ : PageEnv),
        p₁.titleText = p₂.titleText → p₁.pageTitle = p₂.pageTitle →
        (readJobPageDetails parse p₁).jobTitle = (readJobPageDetails parse p₂).jobTitle) ∧
      (∀ (parse : Str → Option UtcView) (p₁ p₂ : PageEnv),
        p₁.companyText = p₂.companyText →
        (readJobPageDetails parse p₁).company = (readJobPageDetails parse p₂).company) ∧
      (∀ (parse : Str → Option UtcView) (p₁ p₂ : PageEnv),
        p₁.descText = p₂.descText → p₁.mainText = p₂.mainText →
        (readJobPageDetails parse p₁).description
          = (readJobPageDetails parse p₂).description) ∧
      (∀ (parse : Str → Option UtcView) (p₁ p₂ : PageEnv),
        p₁.datetimeAttr = p₂.datetimeAttr →
        (readJobPageDetails parse p₁).postingDate
          = (readJobPageDetails parse p₂).postingDate) ∧
      (∀ parse : Str → Option UtcView,
        readJobPageDetails parse pageNone
          = ⟨"(unknown title)".data, "(unknown company)".data, [], []⟩) := by
  refine ⟨?_, ?_, ?_, ?_, fun parse => rfl⟩
  · intro parse p₁ p₂ h1 h2
    simp only [readJobPageDetails, h1, h2]
  · intro parse p₁ p₂ h1
    simp only [readJobPageDetails, h1]
  · intro parse p₁ p₂ h1 h2
    simp only [readJobPageDetails, h1, h2]
  · intro parse p₁ p₂ h1
    simp only [readJobPageDetails, h1]

/-- C9 witness: a page differing only in its description yields the same
company as a fully unreadable page, and the unreadable page yields the
fallback record. -/
theorem extractor_best_effort_witness :
    (readJobPageDetails (fun _ => none) pageNone).company
        = (readJobPageDetails (fun _ => none) pageBoth).company ∧
      readJobPageDetails (fun _ => none) pageNone
        = ⟨"(unknown title)".data, "(unknown company)".data, [], []⟩ :=
  ⟨extractor_best_effort.2.1 (fun _ => none) pageNone pageBoth rfl,
    extractor_best_effort.2.2.2.2 (fun _ => none)⟩

/-- C9 counterexample: the claim that an unreadable field is recorded as
empty is false for the title (and likewise the organization): on a page
on which every read fails, the extractor records the `(unknown title)`
placeholder, which is not the empty string. Only the description and the
posting date degrade to empty. -/
theorem extractor_placeholder_not_empty_cex :
    (readJobPageDetails (fun _ => none) pageNone).jobTitle = "(unknown title)".data ∧
      (readJobPageDetails (fun _ => none) pageNone).company = "(unknown company)".data ∧
      (readJobPageDetails (fun _ => none) pageNone).jobTitle ≠ [] ∧
      (readJobPageDetails (fun _ => none) pageNone).company ≠ [] ∧
      (readJobPageDetails (fun _ => none) pageNone).description = [] ∧
      (readJobPageDetails (fun _ => none) pageNone).postingDate = [] := by
  decide

/-- The extractor's posting date is empty or the rendering of a parsed
UTC calendar view. -/
theorem readJobPageDetails_postingDate_shape (parse : Str → Option UtcView) (p : PageEnv) :
    (readJobPageDetails parse p).postingDate = [] ∨
      ∃ v : UtcView, (readJobPageDetails parse p).postingDate = isoRender v := by
  have hre : (readJobPageDetails parse p).postingDate
      = match p.datetimeAttr with
        | some dt => if dt = [] then [] else toIsoDateOrEmpty parse dt
        | none => [] := rfl
  rw [hre]
  cases p.datetimeAttr with
  | none => exact Or.inl rfl
  | some dt =>
    show (if dt = [] then [] else toIsoDateOrEmpty parse dt) = [] ∨
      ∃ v : UtcView, (if dt = [] then [] else toIsoDateOrEmpty parse dt) = isoRender v
    by_cases hdt : dt = []
    · rw [if_pos hdt]; exact Or.inl rfl
    · rw [if_neg hdt]
      unfold toIsoDateOrEmpty
      cases parse dt with
      | none => exact Or.inl rfl
      | some v => exact Or.inr ⟨v, rfl⟩

/-- The candidate loop preserves the posting-date shape of all recorded
jobs, because a pushed record copies the extractor's posting date. -/
theorem processCandidates_posting_shape (maxResults : Nat) (navOk : Str → Bool)
    (details : Str → JobDetails)
    (hdet : ∀ url, (details url).postingDate = [] ∨
      ∃ v : UtcView, (details url).postingDate = isoRender v) :
    ∀ (hrefs : List Str) (s : LoopState),
      (∀ j ∈ s.jobs, j.postingDate = [] ∨ ∃ v : UtcView, j.postingDate = isoRender v) →
      ∀ j ∈ (processCandidates maxResults navOk details hrefs s).jobs,
        j.postingDate = [] ∨ ∃ v : UtcView, j.postingDate = isoRender v := by
  intro hrefs
  induction hrefs with
  | nil => intro s hp; exact hp
  | cons url rest ih =>
    intro s hp
    simp only [processCandidates]
    by_cases hcap : s.jobs.length ≥ maxResults
    · rw [if_pos hcap]; exact hp
    · rw [if_neg hcap]
      by_cases hseen : url ∈ s.seen
      · rw [if_pos hseen]; exact ih s hp
      · rw [if_neg hseen]
        by_cases hnav : navOk url = true
        · rw [if_pos hnav]
          by_cases hok : (matchesAIandHR (haystackOf (details url))).ok = true
          · rw [if_pos hok]
            refine ih _ (fun j hj => ?_)
            have hj' : j ∈ s.jobs ++ [mkApiJob url (details url)] := hj
            rcases List.mem_append.mp hj' with hj2 | hj2
            · exact hp j hj2
            · simp at hj2
              rw [hj2]
              exact hdet url
          · rw [if_neg hok]; exact ih _ hp
        · rw [if_neg hnav]; exact ih _ hp

/-- C10 (amended): every record of a successful robust-variant run has a
posting date that is either empty or the rendering of a UTC calendar
view: decimal UTC year (four digits `YYYY` exactly when
`1000 ≤ year ≤ 9999`), dash, zero-padded two-digit month in 1..12, dash,
zero-padded two-digit day in 1..31; an absent or unparseable datetime
always yields the empty string. -/
theorem posting_date_shape :
    (∀ (env : HarvestEnv) (jobs : List ApiJob), fetchLinkedInJobsAiHr env = .ok jobs →
        ∀ j ∈ jobs, j.postingDate = [] ∨ ∃ v : UtcView, j.postingDate = isoRender v) ∧
      (∀ v : UtcView, (padTwo (v.monthIndex.val + 1)).length = 2 ∧
        (padTwo (v.dayIndex.val + 1)).length = 2 ∧
        1 ≤ v.monthIndex.val + 1 ∧ v.monthIndex.val + 1 ≤ 12 ∧
        1 ≤ v.dayIndex.val + 1 ∧ v.dayIndex.val + 1 ≤ 31) := by
  constructor
  · intro env jobs h j hj
    obtain ⟨s', hr, hjj⟩ := fetch_ok_elim h
    have hp := runRoundsAiHr_preserves env
      (fun s => ∀ j ∈ s.jobs, j.postingDate = [] ∨ ∃ v : UtcView, j.postingDate = isoRender v)
      (fun idx s hp => processCandidates_posting_shape MAX_RESULTS_TO_PROCESS env.jobNavOk
        (detailsOfEnv env) (fun url => readJobPageDetails_postingDate_shape env.jsParse _)
        (normalizeHrefList (env.hrefsAt idx)) s hp)
      (fun s n hp => hp) MAX_SCROLL_ROUNDS 0 initialLoopState s' (by simp [initialLoopState]) hr
    exact hp j (hjj ▸ hj)
  · intro v
    have hlen : ∀ n, n < 32 → (padTwo n).length = 2 := by decide
    have hm := v.monthIndex.isLt
    have hd := v.dayIndex.isLt
    exact ⟨hlen _ (by omega), hlen _ (by omega), by omega, by omega, by omega, by omega⟩

/-- Host date parser fixture for the witness: ECMA-262 parses
`2024-03-05` to March 5th 2024 UTC. -/
def parseFix : Str → Option UtcView :=
  fun s => if s = "2024-03-05".data then some ⟨2024, ⟨2, by decide⟩, ⟨4, by decide⟩⟩ else none

/-- A matching detail page carrying a machine-readable datetime. -/
def pageDated : PageEnv := { pageBoth with datetimeAttr := some "2024-03-05".data }

/-- Environment with one matching, dated candidate. -/
def envDated : HarvestEnv :=
  { envTriv with
      hrefsAt := fun _ => [viewUrl 1],
      pageAt := fun _ => pageDated,
      jsParse := parseFix }

/-- C10 witness: the record harvested from the dated page satisfies the
shape disjunction. -/
theorem posting_date_shape_witness :
    (mkApiJob (viewUrl 1) (readJobPageDetails parseFix pageDated)).postingDate = [] ∨
      ∃ v : UtcView,
        (mkApiJob (viewUrl 1) (readJobPageDetails parseFix pageDated)).postingDate
          = isoRender v :=
  posting_date_shape.1 envDated _ rfl _ (by decide)

/-- Host date parser fixture modelling ECMA-262 on the valid ISO input
`0005-01-01` (UTC year 5, January 1st; the parse is not NaN). -/
def parseYearFive : Str → Option UtcView :=
  fun s => if s = "0005-01-01".data then some ⟨5, ⟨0, by decide⟩, ⟨0, by decide⟩⟩ else none

/-- C10 counterexample: for a parseable datetime in UTC year 5 the source
renders `String(5) = "5"` without zero-padding the year, so the produced
date `5-01-01` is not of the claimed `YYYY-MM-DD` shape (10 characters). -/
theorem posting_date_year_shape_cex :
    toIsoDateOrEmpty parseYearFive "0005-01-01".data = "5-01-01".data ∧
      ("5-01-01".data).length ≠ 10 := by decide
